import Mathlib

/-!
Verification development for the BOM hierarchy resolution engine
(`BOMHierarchyProcessor`, v2.10.0).  The JavaScript module is shallowly
embedded: rows become a structure, the mutable `visited` set becomes an
explicit state argument, the recursion on `depth`/`maxDepth` becomes
structural recursion on the fuel `maxDepth + 1 - depth`, and JS numbers
become exact rationals.  Machine-level aspects that the embedding fixes:

* `Unit Usg` is `Option ℚ`: `none` models a missing or non-numeric value
  (JS: `row['Unit Usg'] || 1.0` plus the `isNaN` check).  JS `||` also
  turns the number `0` into `1.0`; `usageOr1` reproduces that.
* `LV` is an `Int`; the JS idiom `row.LV || -1` (falsy `0` becomes `-1`)
  is `lvOrNeg1`.
* `LN` is a `Nat`; the constructor reassigns it to `index + 1`
  (`_reindexLN`), so `row.LN || 0` is the identity.
* The `RegExp` compilation outcome of the configured pattern string is an
  input of the model (`compileOk`): the constructor's `try`/`catch`
  either keeps the compiled prefix-alternation matcher or degrades to the
  match-nothing matcher `/^$/`.  Compiled patterns are modelled with the
  documented pipe-separated literal-prefix semantics.
* The traversal is instrumented with a ghost trace of every row index a
  `_findMaterialBeforeLN` lookup matched; the plain function is its first
  projection.  All embedded operations are total, so the JS `catch`
  fallback branch has no reachable analogue.
-/

/-- One BOM line.  Base fields mirror the spreadsheet columns read by the
processor (`LV`, `LN`, `Material`, `Part Number`, `Unit Usg`); the two
`Option` fields are the derived columns `SYS_CPN` and `Ttl. Usage`
written by `process`. -/
structure Row where
  LV : Int
  LN : Nat
  Material : String
  PartNumber : String
  UnitUsg : Option ℚ
  SYS_CPN : Option String := none
  TtlUsage : Option ℚ := none
  deriving DecidableEq

instance : Inhabited Row := ⟨⟨0, 0, "", "", none, none, none⟩⟩

/-- One special LV rule `{lv, prefix}`; the source field `prefix` is
renamed `pfx` here. -/
structure SpecialRule where
  lv : Int
  pfx : String
  deriving DecidableEq

/-- Processor state after construction: the private (deep-copied,
re-indexed) table plus the configuration.  `compileOk` records whether
`new RegExp` on the pattern succeeded. -/
structure BOMHierarchyProcessor where
  data : List Row
  pattern : String
  compileOk : Bool
  lvSpecialRules : List SpecialRule
  deriving DecidableEq

/-- JS `String.prototype.split('|')`, on the character list. -/
def splitPipeAux (cur : List Char) : List Char → List String
  | [] => [String.mk cur.reverse]
  | c :: cs =>
    if c = '|' then String.mk cur.reverse :: splitPipeAux [] cs
    else splitPipeAux (c :: cur) cs

/-- JS `String.prototype.split('|')`. -/
def splitPipe (s : String) : List String := splitPipeAux [] s.data

/-- JS `String.prototype.trim` (whitespace stripped at both ends). -/
def strTrim (s : String) : String :=
  String.mk (((s.data.dropWhile Char.isWhitespace).reverse.dropWhile
    Char.isWhitespace).reverse)

/-- JS `row.LV || -1`: the falsy level `0` is replaced by `-1`. -/
def lvOrNeg1 (lv : Int) : Int := if lv = 0 then -1 else lv

/-- JS `row['Unit Usg'] || 1.0` followed by the `isNaN` guard and
`parseFloat`: missing or non-numeric values (`none`) and the falsy
number `0` all become `1`. -/
def usageOr1 : Option ℚ → ℚ
  | none => 1
  | some q => if q = 0 then 1 else q

/-- Row access `this.data[idx]`. -/
def rowAt (p : BOMHierarchyProcessor) (i : Nat) : Row := p.data.getD i default

/-- `_buildMaterialIndex` followed by `materialIndex.get(m)`: the ordered
list of row positions whose trimmed, non-blank material equals the query
key (absent key = empty list). -/
def materialIndexOf (p : BOMHierarchyProcessor) (m : String) : List Nat :=
  (List.range p.data.length).filter fun i =>
    (strTrim (rowAt p i).Material != "") && (strTrim (rowAt p i).Material == m)

/-- `_findMaterialBeforeLN`: scan the index list from the back and return
the first position whose `LN` is strictly below the bound. -/
def findMaterialBeforeLN (p : BOMHierarchyProcessor) (m : String)
    (beforeLN : Nat) : Option Nat :=
  (materialIndexOf p m).reverse.find? fun i => decide ((rowAt p i).LN < beforeLN)

/-- `matchesPattern`: blank materials never match; a successfully
compiled pattern tests whether any pipe-separated alternative is a
literal prefix of the raw material; a failed compilation
(`materialPattern = /^$/`) matches no non-blank material. -/
def matchesPattern (p : BOMHierarchyProcessor) (material : String) : Bool :=
  if material = "" then false
  else if p.compileOk then
    (splitPipe p.pattern).any fun q => q.data.isPrefixOf material.data
  else false

/-- `_is43Pattern`: `/^43/` on the trimmed material. -/
def is43Pattern (material : String) : Bool :=
  "43".data.isPrefixOf (strTrim material).data

/-- `_is45Pattern`: `/^45/` on the trimmed material. -/
def is45Pattern (material : String) : Bool :=
  "45".data.isPrefixOf (strTrim material).data

/-- `_checkSingleRule`: some trimmed pipe-separated alternative of the
rule's prefix set is a prefix of the trimmed material, and `lv` is at
most the rule's bound. -/
def checkSingleRule (rule : SpecialRule) (lv : Int) (material : String) : Bool :=
  ((splitPipe rule.pfx).map strTrim).any
    (fun q => q.data.isPrefixOf (strTrim material).data)
  && decide (lv ≤ rule.lv)

/-- `_matchesLVSpecialRule`: any configured rule accepts the pair. -/
def matchesLVSpecialRule (rules : List SpecialRule) (lv : Int)
    (material : String) : Bool :=
  rules.any fun r => checkSingleRule r lv material

/-- `_traverseHierarchyUnified`, instrumented.  `fuel` stands for
`maxDepth + 1 - depth` (the guard `depth > maxDepth` is `fuel = 0`).
The result carries the `(material, usage)` pair, the `visited` set after
the call (the JS set is threaded explicitly; `finally` deletes the added
start material on every exit path), and a ghost trace of every row index
matched by a `_findMaterialBeforeLN` lookup during the call. -/
def traverseTraceF (p : BOMHierarchyProcessor) :
    Nat → String → ℚ → Nat → List String →
    ((String × ℚ) × List String) × List Nat
  | 0, start, acc, _, visited => (((start, acc), visited), [])
  | fuel + 1, start, acc, bound, visited =>
    match findMaterialBeforeLN p start bound with
    | none => (((start, acc), visited), [])
    | some i =>
      if start ∈ visited then (((start, acc), visited), [i])
      else
        if lvOrNeg1 (rowAt p i).LV ≤ 0 ∨ (rowAt p i).PartNumber = "" then
          (((start, acc), (start :: visited).erase start), [i])
        else
          match findMaterialBeforeLN p (strTrim (rowAt p i).PartNumber)
              (rowAt p i).LN with
          | none => (((start, acc), (start :: visited).erase start), [i])
          | some j =>
            let newUsage := acc * usageOr1 (rowAt p j).UnitUsg
            if matchesPattern p (rowAt p j).Material then
              if is43Pattern (rowAt p j).Material then
                let r := traverseTraceF p fuel (strTrim (rowAt p i).PartNumber)
                  newUsage (rowAt p i).LN (start :: visited)
                if is45Pattern r.1.1.1 then
                  ((r.1.1, r.1.2.erase start), i :: j :: r.2)
                else
                  ((((rowAt p j).Material, r.1.1.2), r.1.2.erase start),
                    i :: j :: r.2)
              else
                let r := traverseTraceF p fuel (strTrim (rowAt p i).PartNumber)
                  newUsage (rowAt p i).LN (start :: visited)
                ((((rowAt p j).Material, r.1.1.2), r.1.2.erase start),
                  i :: j :: r.2)
            else if matchesLVSpecialRule p.lvSpecialRules
                (lvOrNeg1 (rowAt p j).LV) (rowAt p j).Material then
              ((((rowAt p j).Material, newUsage),
                (start :: visited).erase start), [i, j])
            else
              let r := traverseTraceF p fuel (strTrim (rowAt p i).PartNumber)
                newUsage (rowAt p i).LN (start :: visited)
              ((r.1.1, r.1.2.erase start), i :: j :: r.2)

/-- `_traverseHierarchyUnified(startMaterial, initialUsage, depth,
maxDepth, currentLN)` with the explicit `visited` set: result pair and
final `visited` set. -/
def traverseHierarchyUnified (p : BOMHierarchyProcessor) (start : String)
    (acc : ℚ) (depth maxDepth bound : Nat) (visited : List String) :
    (String × ℚ) × List String :=
  (traverseTraceF p (maxDepth + 1 - depth) start acc bound visited).1

/-- The instrumented traversal with the JS parameter convention. -/
def traverseTraceHU (p : BOMHierarchyProcessor) (start : String)
    (acc : ℚ) (depth maxDepth bound : Nat) (visited : List String) :
    ((String × ℚ) × List String) × List Nat :=
  traverseTraceF p (maxDepth + 1 - depth) start acc bound visited

/-- The per-row priority cascade of `process` (steps 1-4), producing the
`(SYS_CPN, Ttl. Usage)` pair for one row.  Every traversal starts from a
cleared `visited` set and is bounded by the row's own `LN`. -/
def processRowResult (p : BOMHierarchyProcessor) (row : Row) : String × ℚ :=
  let currentMaterial := row.Material
  let unitUsg := usageOr1 row.UnitUsg
  if row.LV ≤ 1 then (currentMaterial, unitUsg)
  else if matchesPattern p currentMaterial then
    (currentMaterial,
      (traverseHierarchyUnified p currentMaterial unitUsg 0 20 row.LN []).1.2)
  else if matchesLVSpecialRule p.lvSpecialRules row.LV currentMaterial then
    (currentMaterial,
      (traverseHierarchyUnified p currentMaterial unitUsg 0 20 row.LN []).1.2)
  else if row.PartNumber = "" then (currentMaterial, unitUsg)
  else
    let parentMaterialStr := strTrim row.PartNumber
    if matchesPattern p parentMaterialStr then
      (parentMaterialStr,
        (traverseHierarchyUnified p parentMaterialStr unitUsg 0 20 row.LN []).1.2)
    else
      let r := (traverseHierarchyUnified p parentMaterialStr unitUsg 0 20
        row.LN []).1
      (if r.1 = "" then currentMaterial else r.1, r.2)

/-- `process()`: compute all row results first, then write the two
derived columns back onto the private table. -/
def process (p : BOMHierarchyProcessor) : BOMHierarchyProcessor :=
  { p with
    data := p.data.map fun row =>
      { row with
        SYS_CPN := some (processRowResult p row).1
        TtlUsage := some (processRowResult p row).2 } }

/-- `_reindexLN` body: overwrite `LN` with `k+1, k+2, …`. -/
def reindexLNFrom : Nat → List Row → List Row
  | _, [] => []
  | k, r :: rs => { r with LN := k + 1 } :: reindexLNFrom (k + 1) rs

/-- `_reindexLN`: reassign `LN` as `1..N` in physical order. -/
def reindexLN (rows : List Row) : List Row := reindexLNFrom 0 rows

/-- The constructor: deep-copy the caller's table (value semantics),
re-index `LN`, record the configuration and the pattern-compilation
outcome. -/
def construct (rows : List Row) (pattern : String) (compileOk : Bool)
    (rules : List SpecialRule) : BOMHierarchyProcessor :=
  { data := reindexLN rows
    pattern := pattern
    compileOk := compileOk
    lvSpecialRules := rules }

/-- The three-row table of the specification's concrete scenario:
`ROOT` (level 1, usage 1) ← `45ABC` (level 2, usage 2) ← `X1`
(level 3, usage 5). -/
def dataC1 : List Row :=
  [ { LV := 1, LN := 0, Material := "ROOT", PartNumber := "", UnitUsg := some 1 }
  , { LV := 2, LN := 0, Material := "45ABC", PartNumber := "ROOT",
      UnitUsg := some 2 }
  , { LV := 3, LN := 0, Material := "X1", PartNumber := "45ABC",
      UnitUsg := some 5 } ]

/-- The scenario processor: pattern `"45"`, no special rules. -/
def pC1 : BOMHierarchyProcessor := construct dataC1 "45" true []

/-- A four-row chain `ROOT` (level 1, usage 3) ← `45B` (class-B, level 2,
usage 7) ← `43A` (class-A, level 3, usage 2) ← `XX` (level 4, usage 5). -/
def dataC2 : List Row :=
  [ { LV := 1, LN := 0, Material := "ROOT", PartNumber := "", UnitUsg := some 3 }
  , { LV := 2, LN := 0, Material := "45B", PartNumber := "ROOT",
      UnitUsg := some 7 }
  , { LV := 3, LN := 0, Material := "43A", PartNumber := "45B",
      UnitUsg := some 2 }
  , { LV := 4, LN := 0, Material := "XX", PartNumber := "43A",
      UnitUsg := some 5 } ]

/-- The tie-break processor: pattern `"43|45"` matches both prefix
classes, no special rules. -/
def pC2 : BOMHierarchyProcessor := construct dataC2 "43|45" true []

/-- A five-row chain `ROOT` ← `45CX` (class-B) ← `DCS1` ← `43AY`
(class-A) ← `XQ`, all unit usages 1. -/
def dataC5 : List Row :=
  [ { LV := 1, LN := 0, Material := "ROOT", PartNumber := "", UnitUsg := some 1 }
  , { LV := 2, LN := 0, Material := "45CX", PartNumber := "ROOT",
      UnitUsg := some 1 }
  , { LV := 3, LN := 0, Material := "DCS1", PartNumber := "45CX",
      UnitUsg := some 1 }
  , { LV := 4, LN := 0, Material := "43AY", PartNumber := "DCS1",
      UnitUsg := some 1 }
  , { LV := 5, LN := 0, Material := "XQ", PartNumber := "43AY",
      UnitUsg := some 1 } ]

/-- Processor for `dataC5`: pattern `"43|45"` and one special rule
(level bound 5, prefix set `"DCS"`) sitting between the class-A row and
its class-B ancestor. -/
def pC5 : BOMHierarchyProcessor := construct dataC5 "43|45" true [⟨5, "DCS"⟩]

/-- A two-row parent-reference cycle: `A` names parent `B`, `B` names
parent `A`. -/
def dataCyc : List Row :=
  [ { LV := 2, LN := 0, Material := "A", PartNumber := "B", UnitUsg := some 1 }
  , { LV := 2, LN := 0, Material := "B", PartNumber := "A", UnitUsg := some 1 } ]

/-- Processor for the cyclic table (pattern matches nothing in it). -/
def pCyc : BOMHierarchyProcessor := construct dataCyc "ZZZ" true []

/-- Three rows sharing one material code `M`. -/
def dataDup : List Row :=
  [ { LV := 2, LN := 0, Material := "M", PartNumber := "", UnitUsg := none }
  , { LV := 2, LN := 0, Material := "M", PartNumber := "", UnitUsg := none }
  , { LV := 2, LN := 0, Material := "M", PartNumber := "", UnitUsg := none } ]

/-- Processor for the duplicate-material table. -/
def pDup : BOMHierarchyProcessor := construct dataDup "ZZZ" true []

/-- Two rows agree on every column the engine reads (`LV`, `LN`,
`Material`, `Part Number`, `Unit Usg`), regardless of the derived
columns. -/
def baseEqRow (r s : Row) : Prop :=
  r.LV = s.LV ∧ r.LN = s.LN ∧ r.Material = s.Material ∧
  r.PartNumber = s.PartNumber ∧ r.UnitUsg = s.UnitUsg

/-- Two processors agree on their configuration and, row by row, on
every column the engine reads. -/
def coreAgree (p q : BOMHierarchyProcessor) : Prop :=
  p.pattern = q.pattern ∧ p.compileOk = q.compileOk ∧
  p.lvSpecialRules = q.lvSpecialRules ∧ p.data.length = q.data.length ∧
  ∀ i, baseEqRow (rowAt p i) (rowAt q i)

/-- A successful lookup only ever returns a row strictly below the
bound. -/
theorem findMaterialBeforeLN_lt {p : BOMHierarchyProcessor} {m : String}
    {b i : Nat} (h : findMaterialBeforeLN p m b = some i) :
    (rowAt p i).LN < b := by
  unfold findMaterialBeforeLN at h
  simpa using List.find?_some h

/-- The traversal hands back exactly the `visited` set it received: the
start material added on entry is erased on every exit path. -/
theorem traverseTraceF_visited (p : BOMHierarchyProcessor) :
    ∀ fuel start acc bound visited,
      (traverseTraceF p fuel start acc bound visited).1.2 = visited := by
  intro fuel
  induction fuel with
  | zero => intro s a b v; rfl
  | succ n ih =>
    intro s a b v
    rw [traverseTraceF]
    cases findMaterialBeforeLN p s b with
    | none => rfl
    | some i =>
      dsimp only
      split
      · rfl
      · split
        · simp
        · cases findMaterialBeforeLN p (strTrim (rowAt p i).PartNumber)
              (rowAt p i).LN with
          | none => simp
          | some j =>
            dsimp only
            split
            · split
              · split <;> simp [ih]
              · simp [ih]
            · split
              · simp
              · simp [ih]

/-- Every row index matched by a lookup during a traversal lies strictly
below the bound the traversal was given. -/
theorem traverseTraceF_trace_lt (p : BOMHierarchyProcessor) :
    ∀ fuel start acc bound visited i,
      i ∈ (traverseTraceF p fuel start acc bound visited).2 →
      (rowAt p i).LN < bound := by
  intro fuel
  induction fuel with
  | zero => intro s a b v i h; simp [traverseTraceF] at h
  | succ n ih =>
    intro s a b v i h
    rw [traverseTraceF] at h
    cases hf : findMaterialBeforeLN p s b with
    | none => rw [hf] at h; simp at h
    | some i0 =>
      rw [hf] at h
      have hi0 : (rowAt p i0).LN < b := findMaterialBeforeLN_lt hf
      dsimp only at h
      split at h
      · simp at h; subst h; exact hi0
      · split at h
        · simp at h; subst h; exact hi0
        · cases hg : findMaterialBeforeLN p (strTrim (rowAt p i0).PartNumber)
              (rowAt p i0).LN with
          | none => rw [hg] at h; simp at h; subst h; exact hi0
          | some j =>
            rw [hg] at h
            have hj : (rowAt p j).LN < (rowAt p i0).LN :=
              findMaterialBeforeLN_lt hg
            dsimp only at h
            split at h
            · split at h
              · split at h <;>
                  (simp at h
                   rcases h with h | h | h
                   · subst h; exact hi0
                   · subst h; exact lt_trans hj hi0
                   · exact lt_trans (ih _ _ _ _ _ h) hi0)
              · simp at h
                rcases h with h | h | h
                · subst h; exact hi0
                · subst h; exact lt_trans hj hi0
                · exact lt_trans (ih _ _ _ _ _ h) hi0
            · split at h
              · simp at h
                rcases h with h | h
                · subst h; exact hi0
                · subst h; exact lt_trans hj hi0
              · simp at h
                rcases h with h | h | h
                · subst h; exact hi0
                · subst h; exact lt_trans hj hi0
                · exact lt_trans (ih _ _ _ _ _ h) hi0

/-- Replacing a falsy level `0` by `-1` never increases the level. -/
theorem lvOrNeg1_le (lv : Int) : lvOrNeg1 lv ≤ lv := by
  unfold lvOrNeg1
  split <;> omega

/-- The special-rule check is antitone in the level argument. -/
theorem matchesLVSpecialRule_mono {rules : List SpecialRule} {lv lv' : Int}
    {m : String} (hle : lv' ≤ lv) (h : matchesLVSpecialRule rules lv m = true) :
    matchesLVSpecialRule rules lv' m = true := by
  unfold matchesLVSpecialRule at h ⊢
  rw [List.any_eq_true] at h ⊢
  obtain ⟨r, hrmem, hc⟩ := h
  refine ⟨r, hrmem, ?_⟩
  unfold checkSingleRule at hc ⊢
  rw [Bool.and_eq_true] at hc ⊢
  exact ⟨hc.1, decide_eq_true (le_trans hle (of_decide_eq_true hc.2))⟩

/-- C1: on the specification's concrete scenario the third row (`X1`)
does not receive totalUsage 10: the engine multiplies the initial usage
by each found parent row's unit usage starting from the resolved
reference `45ABC`, so `X1` receives 5·u(ROOT) = 5, not
5·u(45ABC) = 10. -/
theorem claim_C1_counterexample :
    (rowAt (process pC1) 2).SYS_CPN = some "45ABC" ∧
    (rowAt (process pC1) 2).TtlUsage = some 5 ∧
    (rowAt (process pC1) 2).TtlUsage ≠ some 10 := by
  with_unfolding_all decide

/-- C1 (amended): processing the scenario table with pattern `"45"`
yields `ROOT` → (`ROOT`, 1), `45ABC` → (`45ABC`, 2), and `X1` →
(`45ABC`, 5): the accumulated usage is the row's own unit usage times
the unit usages of the parent rows found while walking upward from the
resolved reference (here `ROOT`'s usage 1), not the product of unit
usages along the chain up to the terminal. -/
theorem claim_C1_theorem :
    ((rowAt (process pC1) 0).SYS_CPN = some "ROOT" ∧
      (rowAt (process pC1) 0).TtlUsage = some 1) ∧
    ((rowAt (process pC1) 1).SYS_CPN = some "45ABC" ∧
      (rowAt (process pC1) 1).TtlUsage = some 2) ∧
    ((rowAt (process pC1) 2).SYS_CPN = some "45ABC" ∧
      (rowAt (process pC1) 2).TtlUsage = some 5) := by
  with_unfolding_all decide

/-- C2: in the four-row chain with both prefix classes matched by the
pattern, resolving `XX` yields the class-A material `43A`, not the
class-B material `45B`, and its totalUsage is 105 = 5·7·3, not the
product 70 = 5·2·7 of the three intermediate unit usages: the
orchestrator pushes a pattern-matching parent reference directly,
bypassing the 43/45 tie-break of the traversal engine. -/
theorem claim_C2_counterexample :
    (rowAt (process pC2) 3).SYS_CPN = some "43A" ∧
    (rowAt (process pC2) 3).SYS_CPN ≠ some "45B" ∧
    (rowAt (process pC2) 3).TtlUsage ≠ some 70 := by
  with_unfolding_all decide

/-- C2 (amended): on the four-row chain `XX` → `43A` → `45B` → `ROOT`
with pattern `"43|45"`, row `XX` resolves to sysComponent `43A` (the
directly referenced class-A parent, returned as-is because it matches
the pattern) with totalUsage 105 = u(XX)·u(45B)·u(ROOT). -/
theorem claim_C2_theorem :
    (rowAt (process pC2) 3).SYS_CPN = some "43A" ∧
    (rowAt (process pC2) 3).TtlUsage = some 105 := by
  with_unfolding_all decide

/-- C3: the instrumented traversal is the traversal (first conjunct),
and every row matched by any lookup during a traversal bounded by
`bound` has `LN` strictly below `bound`; since every per-row resolution
passes the row's own `LN` as the bound, resolution never matches a
same-coded occurrence at or after the row being resolved. -/
theorem claim_C3_theorem (p : BOMHierarchyProcessor) (start : String)
    (acc : ℚ) (depth maxDepth bound : Nat) (visited : List String) :
    (traverseTraceHU p start acc depth maxDepth bound visited).1 =
      traverseHierarchyUnified p start acc depth maxDepth bound visited ∧
    ∀ i, i ∈ (traverseTraceHU p start acc depth maxDepth bound visited).2 →
      (rowAt p i).LN < bound :=
  ⟨rfl, fun i h => traverseTraceF_trace_lt p _ _ _ _ _ i h⟩

/-- C3 witness: in the scenario table, resolving from `45ABC` with the
bound 3 of row `X1` matches the `ROOT` row (index 0), whose sequence 1
is indeed below the bound. -/
theorem claim_C3_witness : (rowAt pC1 0).LN < 3 :=
  (claim_C3_theorem pC1 "45ABC" 5 0 20 3 []).2 0 (by with_unfolding_all decide)

/-- C6: the traversal always terminates and returns a value (it is a
total function of its fuel `maxDepth + 1 - depth`); whenever `depth`
exceeds the fixed cap 20 it returns `(startMaterial, accumulatedUsage)`
with the visited set untouched, and on the two-row parent-reference
cycle A→B→A it terminates and returns a value well within the cap. -/
theorem claim_C6_theorem :
    (∀ (p : BOMHierarchyProcessor) (start : String) (acc : ℚ)
      (depth bound : Nat) (visited : List String), depth > 20 →
      traverseHierarchyUnified p start acc depth 20 bound visited =
        ((start, acc), visited)) ∧
    traverseHierarchyUnified pCyc "B" 1 0 20 3 [] = (("A", 1), []) := by
  constructor
  · intro p s a d b v hd
    unfold traverseHierarchyUnified
    have h0 : 20 + 1 - d = 0 := by omega
    rw [h0]
    rfl
  · with_unfolding_all decide

/-- C6 witness: at depth 21 on the cyclic table the traversal returns
its arguments unchanged. -/
theorem claim_C6_witness :
    traverseHierarchyUnified pCyc "A" 1 21 20 3 [] = (("A", 1), []) :=
  claim_C6_theorem.1 pCyc "A" 1 21 3 [] (by decide)

/-- C8: when pattern compilation fails, construction still produces a
full processor (its table is the re-indexed input) and the degraded
matcher matches nothing: `matchesPattern` is false on every material
string, including the empty string. -/
theorem claim_C8_theorem (rows : List Row) (pattern : String)
    (rules : List SpecialRule) (material : String) :
    (construct rows pattern false rules).data = reindexLN rows ∧
    matchesPattern (construct rows pattern false rules) material = false := by
  refine ⟨rfl, ?_⟩
  unfold matchesPattern construct
  by_cases h : material = "" <;> simp [h]

/-- C10: the traversal returns the `visited` set exactly as it received
it on every exit path, so a top-level resolution that begins with an
empty visited set ends with an empty one, for every table,
configuration, depth and bound. -/
theorem claim_C10_theorem (p : BOMHierarchyProcessor) (start : String)
    (acc : ℚ) (depth maxDepth bound : Nat) (visited : List String) :
    (traverseHierarchyUnified p start acc depth maxDepth bound visited).2 =
      visited :=
  traverseTraceF_visited p _ _ _ _ _

/-- Scanning the reversed filtered range from the back, a successful
`find?` returns the greatest index below `n` satisfying both
predicates. -/
theorem revFilterRangeFindSome (q pr : Nat → Bool) :
    ∀ n i, (((List.range n).filter q).reverse.find? pr = some i) →
      i < n ∧ q i = true ∧ pr i = true ∧
      ∀ j, j < n → q j = true → pr j = true → j ≤ i := by
  intro n
  induction n with
  | zero => intro i h; simp at h
  | succ n ih =>
    intro i h
    rw [List.range_succ, List.filter_append, List.reverse_append] at h
    by_cases hq : q n
    · have hfn : List.filter q [n] = [n] := by simp [hq]
      rw [hfn] at h
      simp only [List.reverse_cons, List.reverse_nil, List.nil_append,
        List.singleton_append] at h
      by_cases hp : pr n
      · rw [List.find?_cons_of_pos _ hp] at h
        have hin : i = n := by injection h; omega
        subst hin
        exact ⟨Nat.lt_succ_self i, hq, hp,
          fun j hj _ _ => Nat.lt_succ_iff.mp hj⟩
      · have hp' : pr n = false := by
          rwa [Bool.not_eq_true] at hp
        rw [List.find?_cons_of_neg _ hp] at h
        obtain ⟨hi, hqi, hpi, hmax⟩ := ih i h
        refine ⟨Nat.lt_succ_of_lt hi, hqi, hpi, fun j hj hqj hpj => ?_⟩
        rcases Nat.lt_succ_iff_lt_or_eq.mp hj with hj' | rfl
        · exact hmax j hj' hqj hpj
        · rw [hp'] at hpj; exact absurd hpj (by simp)
    · have hq' : q n = false := by rwa [Bool.not_eq_true] at hq
      have hfn : List.filter q [n] = [] := by simp [hq']
      rw [hfn] at h
      simp only [List.reverse_nil, List.append_nil] at h
      obtain ⟨hi, hqi, hpi, hmax⟩ := ih i h
      refine ⟨Nat.lt_succ_of_lt hi, hqi, hpi, fun j hj hqj hpj => ?_⟩
      rcases Nat.lt_succ_iff_lt_or_eq.mp hj with hj' | rfl
      · exact hmax j hj' hqj hpj
      · rw [hq'] at hqj; exact absurd hqj (by simp)

/-- The backward scan comes up empty exactly when no index below `n`
satisfies both predicates. -/
theorem revFilterRangeFindNone (q pr : Nat → Bool) (n : Nat) :
    (((List.range n).filter q).reverse.find? pr = none) ↔
      ∀ j, j < n → q j = true → pr j = false := by
  rw [List.find?_eq_none]
  constructor
  · intro h j hj hqj
    rw [← Bool.not_eq_true]
    exact h j (by simp [List.mem_filter, List.mem_range, hj, hqj])
  · intro h x hx
    rw [List.mem_reverse, List.mem_filter, List.mem_range] at hx
    rw [Bool.not_eq_true]
    exact h x hx.1 hx.2

/-- Re-indexing keeps the number of rows. -/
theorem reindexLNFrom_length (rows : List Row) :
    ∀ k, (reindexLNFrom k rows).length = rows.length := by
  induction rows with
  | nil => intro k; rfl
  | cons r rs ih => intro k; simp [reindexLNFrom, ih]

/-- Re-indexing rewrites only the `LN` field, to `k + i + 1` at
position `i`. -/
theorem reindexLNFrom_getD (rows : List Row) :
    ∀ k i, i < rows.length →
      (reindexLNFrom k rows).getD i default =
        { rows.getD i default with LN := k + i + 1 } := by
  induction rows with
  | nil => intro k i h; simp at h
  | cons r rs ih =>
    intro k i h
    cases i with
    | zero => rfl
    | succ m =>
      simp only [reindexLNFrom, List.getD_cons_succ]
      rw [ih (k + 1) m (by simpa using h)]
      have : k + 1 + m + 1 = k + (m + 1) + 1 := by omega
      rw [this]

/-- After construction every in-range row carries the reassigned
sequence `i + 1`. -/
theorem construct_LN (rows : List Row) (pat : String) (ok : Bool)
    (rules : List SpecialRule) (i : Nat) (h : i < rows.length) :
    (rowAt (construct rows pat ok rules) i).LN = i + 1 := by
  unfold rowAt construct reindexLN
  rw [reindexLNFrom_getD rows 0 i h]
  simp

/-- The constructed table has as many rows as the input. -/
theorem construct_length (rows : List Row) (pat : String) (ok : Bool)
    (rules : List SpecialRule) :
    (construct rows pat ok rules).data.length = rows.length := by
  unfold construct reindexLN
  exact reindexLNFrom_length rows 0

/-- C4: nearest-preceding resolver contract for a constructed processor.
A successful lookup of `m` below `b` returns an in-range position whose
trimmed material is `m` (necessarily non-blank) with reassigned
sequence strictly below `b`, and that sequence is the greatest such one;
the lookup fails exactly when no row with non-blank trimmed material
equal to `m` has sequence strictly below `b`. -/
theorem claim_C4_theorem (rows : List Row) (pat : String) (ok : Bool)
    (rules : List SpecialRule) (m : String) (b : Nat) :
    (∀ i, findMaterialBeforeLN (construct rows pat ok rules) m b = some i →
      i < (construct rows pat ok rules).data.length ∧
      strTrim (rowAt (construct rows pat ok rules) i).Material = m ∧
      m ≠ "" ∧ (rowAt (construct rows pat ok rules) i).LN < b ∧
      ∀ j, j < (construct rows pat ok rules).data.length →
        strTrim (rowAt (construct rows pat ok rules) j).Material = m →
        (rowAt (construct rows pat ok rules) j).LN < b →
        (rowAt (construct rows pat ok rules) j).LN ≤
          (rowAt (construct rows pat ok rules) i).LN) ∧
    (findMaterialBeforeLN (construct rows pat ok rules) m b = none ↔
      ∀ j, j < (construct rows pat ok rules).data.length →
        strTrim (rowAt (construct rows pat ok rules) j).Material = m →
        strTrim (rowAt (construct rows pat ok rules) j).Material ≠ "" →
        ¬ (rowAt (construct rows pat ok rules) j).LN < b) := by
  set p := construct rows pat ok rules with hp
  have hlen : p.data.length = rows.length := construct_length rows pat ok rules
  have hLN : ∀ i, i < p.data.length → (rowAt p i).LN = i + 1 := by
    intro i hi
    exact construct_LN rows pat ok rules i (hlen ▸ hi)
  constructor
  · intro i h
    unfold findMaterialBeforeLN materialIndexOf at h
    obtain ⟨hi, hqi, hpi, hmax⟩ := revFilterRangeFindSome _ _ _ i h
    rw [Bool.and_eq_true, bne_iff_ne, beq_iff_eq] at hqi
    rw [decide_eq_true_eq] at hpi
    obtain ⟨hne, heq⟩ := hqi
    have hmne : m ≠ "" := heq ▸ hne
    refine ⟨hi, heq, hmne, hpi, fun j hj hjm hjb => ?_⟩
    have hqj : ((strTrim (rowAt p j).Material != "") &&
        (strTrim (rowAt p j).Material == m)) = true := by
      simp only [Bool.and_eq_true, bne_iff_ne, beq_iff_eq]
      exact ⟨by rw [hjm]; exact hmne, hjm⟩
    have hji := hmax j hj hqj (decide_eq_true hjb)
    have h1 := hLN i hi
    have h2 := hLN j hj
    omega
  · unfold findMaterialBeforeLN materialIndexOf
    rw [revFilterRangeFindNone]
    constructor
    · intro h j hj hjm hjne
      have := h j hj (by rw [Bool.and_eq_true, bne_iff_ne, beq_iff_eq]
                         exact ⟨hjne, hjm⟩)
      rw [decide_eq_false_iff_not] at this
      exact this
    · intro h j hj hqj
      rw [Bool.and_eq_true, bne_iff_ne, beq_iff_eq] at hqj
      rw [decide_eq_false_iff_not]
      exact h j hj hqj.2 hqj.1

/-- C4 witness: in the three-row duplicate-material table, looking up
`M` below sequence 3 picks the second occurrence (the greatest sequence
strictly below the bound), and in particular the first occurrence's
sequence is at most the returned one's. -/
theorem claim_C4_witness : (rowAt pDup 0).LN ≤ (rowAt pDup 1).LN :=
  ((claim_C4_theorem dataDup "ZZZ" true [] "M" 3).1 1
      (by with_unfolding_all decide)).2.2.2.2 0
    (by with_unfolding_all decide)
    (by with_unfolding_all decide)
    (by with_unfolding_all decide)

/-- C5: the five-row dataset refutes whole-chain supersession.  Resolving
from `XQ`, the engine locates parent `43AY`, which matches the primary
pattern and is class-A; the class-B material `45CX` occurs further up
that parent's ancestor chain (it is the resolved parent of `DCS1`, which
is the resolved parent of `43AY`); yet the traversal returns `43AY`, not
`45CX`, because the special rule on `DCS1` terminates the upward
recursion first. -/
theorem claim_C5_counterexample :
    findMaterialBeforeLN pC5 "XQ" 6 = some 4 ∧
    strTrim (rowAt pC5 4).PartNumber = "43AY" ∧
    findMaterialBeforeLN pC5 "43AY" (rowAt pC5 4).LN = some 3 ∧
    matchesPattern pC5 (rowAt pC5 3).Material = true ∧
    is43Pattern (rowAt pC5 3).Material = true ∧
    strTrim (rowAt pC5 3).PartNumber = "DCS1" ∧
    findMaterialBeforeLN pC5 "DCS1" (rowAt pC5 3).LN = some 2 ∧
    strTrim (rowAt pC5 2).PartNumber = "45CX" ∧
    findMaterialBeforeLN pC5 "45CX" (rowAt pC5 2).LN = some 1 ∧
    is45Pattern (rowAt pC5 1).Material = true ∧
    (traverseHierarchyUnified pC5 "XQ" 1 0 20 6 []).1.1 = "43AY" ∧
    (traverseHierarchyUnified pC5 "XQ" 1 0 20 6 []).1.1 ≠ "45CX" := by
  with_unfolding_all decide

/-- C5 (amended): when the located parent matches the primary pattern
and is class-A, the engine recurses upward from that parent, and
supersession is decided by that recursive call's own terminal: the
class-B material is returned exactly when the upstream traversal itself
terminates at a class-B material; otherwise (for instance when a special
rule, an unmatched ancestor chain, the depth cap, or the visited guard
stops the recursion elsewhere) the class-A parent's material is
returned, with the recursively accumulated usage in both cases. -/
theorem claim_C5_theorem (p : BOMHierarchyProcessor) (start : String)
    (acc : ℚ) (depth maxDepth bound : Nat) (visited : List String) (i j : Nat)
    (hd : depth ≤ maxDepth)
    (hi : findMaterialBeforeLN p start bound = some i)
    (hv : start ∉ visited)
    (hterm : ¬(lvOrNeg1 (rowAt p i).LV ≤ 0 ∨ (rowAt p i).PartNumber = ""))
    (hj : findMaterialBeforeLN p (strTrim (rowAt p i).PartNumber)
      (rowAt p i).LN = some j)
    (hm : matchesPattern p (rowAt p j).Material = true)
    (h43 : is43Pattern (rowAt p j).Material = true) :
    (traverseHierarchyUnified p start acc depth maxDepth bound visited).1 =
      (if is45Pattern (traverseHierarchyUnified p
            (strTrim (rowAt p i).PartNumber)
            (acc * usageOr1 (rowAt p j).UnitUsg) (depth + 1) maxDepth
            (rowAt p i).LN (start :: visited)).1.1
        then (traverseHierarchyUnified p (strTrim (rowAt p i).PartNumber)
            (acc * usageOr1 (rowAt p j).UnitUsg) (depth + 1) maxDepth
            (rowAt p i).LN (start :: visited)).1
        else ((rowAt p j).Material,
          (traverseHierarchyUnified p (strTrim (rowAt p i).PartNumber)
            (acc * usageOr1 (rowAt p j).UnitUsg) (depth + 1) maxDepth
            (rowAt p i).LN (start :: visited)).1.2)) := by
  unfold traverseHierarchyUnified
  have hfuel : maxDepth + 1 - depth = (maxDepth - depth) + 1 := by omega
  have hfuel2 : maxDepth + 1 - (depth + 1) = maxDepth - depth := by omega
  rw [hfuel, hfuel2, traverseTraceF, hi]
  dsimp only
  rw [if_neg hv, if_neg hterm, hj]
  dsimp only
  rw [hm, h43]
  by_cases h45 : is45Pattern (traverseTraceF p (maxDepth - depth)
      (strTrim (rowAt p i).PartNumber) (acc * usageOr1 (rowAt p j).UnitUsg)
      (rowAt p i).LN (start :: visited)).1.1.1 = true
  · simp [h45]
  · simp [h45]

/-- C5 witness: the amended law instantiated on the five-row dataset at
the `XQ` resolution step. -/
theorem claim_C5_witness :
    (traverseHierarchyUnified pC5 "XQ" 1 0 20 6 []).1 =
      (if is45Pattern (traverseHierarchyUnified pC5
            (strTrim (rowAt pC5 4).PartNumber)
            (1 * usageOr1 (rowAt pC5 3).UnitUsg) (0 + 1) 20
            (rowAt pC5 4).LN ("XQ" :: [])).1.1
        then (traverseHierarchyUnified pC5 (strTrim (rowAt pC5 4).PartNumber)
            (1 * usageOr1 (rowAt pC5 3).UnitUsg) (0 + 1) 20
            (rowAt pC5 4).LN ("XQ" :: [])).1
        else ((rowAt pC5 3).Material,
          (traverseHierarchyUnified pC5 (strTrim (rowAt pC5 4).PartNumber)
            (1 * usageOr1 (rowAt pC5 3).UnitUsg) (0 + 1) 20
            (rowAt pC5 4).LN ("XQ" :: [])).1.2)) :=
  claim_C5_theorem pC5 "XQ" 1 0 20 6 [] 4 3
    (by decide)
    (by with_unfolding_all decide)
    (by with_unfolding_all decide)
    (by with_unfolding_all decide)
    (by with_unfolding_all decide)
    (by with_unfolding_all decide)
    (by with_unfolding_all decide)

/-- C7: when the traversal has located the current row and the parent
row, the parent does not match the primary pattern, but its actual
(level, material) pair satisfies the special rule set, the traversal
returns the parent's material with the accumulator multiplied by the
parent's unit usage, and recurses no further.  (The code evaluates the
rule set at `LV || -1`, which can only make the level check easier, so
the claim's hypothesis suffices.) -/
theorem claim_C7_theorem (p : BOMHierarchyProcessor) (start : String)
    (acc : ℚ) (depth maxDepth bound : Nat) (visited : List String) (i j : Nat)
    (hd : depth ≤ maxDepth)
    (hi : findMaterialBeforeLN p start bound = some i)
    (hv : start ∉ visited)
    (hterm : ¬(lvOrNeg1 (rowAt p i).LV ≤ 0 ∨ (rowAt p i).PartNumber = ""))
    (hj : findMaterialBeforeLN p (strTrim (rowAt p i).PartNumber)
      (rowAt p i).LN = some j)
    (hm : matchesPattern p (rowAt p j).Material = false)
    (hr : matchesLVSpecialRule p.lvSpecialRules (rowAt p j).LV
      (rowAt p j).Material = true) :
    (traverseHierarchyUnified p start acc depth maxDepth bound visited).1 =
      ((rowAt p j).Material, acc * usageOr1 (rowAt p j).UnitUsg) := by
  have hr' : matchesLVSpecialRule p.lvSpecialRules (lvOrNeg1 (rowAt p j).LV)
      (rowAt p j).Material = true :=
    matchesLVSpecialRule_mono (lvOrNeg1_le _) hr
  unfold traverseHierarchyUnified
  have hfuel : maxDepth + 1 - depth = (maxDepth - depth) + 1 := by omega
  rw [hfuel, traverseTraceF, hi]
  dsimp only
  rw [if_neg hv, if_neg hterm, hj]
  dsimp only
  rw [hm, hr']
  simp

/-- C7 witness: the secondary termination instantiated on the five-row
dataset, one step into the `XQ` resolution, where parent `DCS1`
satisfies the rule (level 3 ≤ 5, prefix `DCS`). -/
theorem claim_C7_witness :
    (traverseHierarchyUnified pC5 "43AY" 1 1 20 5 ["XQ"]).1 =
      ((rowAt pC5 2).Material, 1 * usageOr1 (rowAt pC5 2).UnitUsg) :=
  claim_C7_theorem pC5 "43AY" 1 1 20 5 ["XQ"] 3 2
    (by decide)
    (by with_unfolding_all decide)
    (by with_unfolding_all decide)
    (by with_unfolding_all decide)
    (by with_unfolding_all decide)
    (by with_unfolding_all decide)
    (by with_unfolding_all decide)

/-- The material index only reads `Material`, so core-agreeing
processors build the same index. -/
theorem materialIndexOf_congr {p q : BOMHierarchyProcessor}
    (h : coreAgree p q) (m : String) :
    materialIndexOf p m = materialIndexOf q m := by
  unfold materialIndexOf
  rw [h.2.2.2.1]
  refine List.filter_congr ?_
  intro i _
  rw [(h.2.2.2.2 i).2.2.1]

/-- The nearest-preceding resolver only reads `Material` and `LN`. -/
theorem findMaterialBeforeLN_congr {p q : BOMHierarchyProcessor}
    (h : coreAgree p q) (m : String) (b : Nat) :
    findMaterialBeforeLN p m b = findMaterialBeforeLN q m b := by
  unfold findMaterialBeforeLN
  rw [materialIndexOf_congr h m]
  congr 1
  funext i
  rw [(h.2.2.2.2 i).2.1]

/-- The pattern matcher only reads the configuration. -/
theorem matchesPattern_congr {p q : BOMHierarchyProcessor}
    (h : coreAgree p q) (m : String) :
    matchesPattern p m = matchesPattern q m := by
  unfold matchesPattern
  rw [h.1, h.2.1]

/-- The traversal engine reads only the configuration and the base
columns, so core-agreeing processors traverse identically. -/
theorem traverseTraceF_congr {p q : BOMHierarchyProcessor}
    (h : coreAgree p q) :
    ∀ fuel start acc bound visited,
      traverseTraceF p fuel start acc bound visited =
        traverseTraceF q fuel start acc bound visited := by
  intro fuel
  induction fuel with
  | zero => intro s a b v; rfl
  | succ n ih =>
    intro s a b v
    rw [traverseTraceF, traverseTraceF, findMaterialBeforeLN_congr h]
    cases hf : findMaterialBeforeLN q s b with
    | none => rfl
    | some i =>
      dsimp only
      obtain ⟨hLV, hLN, hMat, hPN, hUsg⟩ := h.2.2.2.2 i
      rw [hLV, hLN, hPN, findMaterialBeforeLN_congr h]
      cases hg : findMaterialBeforeLN q (strTrim (rowAt q i).PartNumber)
          (rowAt q i).LN with
      | none => rfl
      | some j =>
        dsimp only
        obtain ⟨hLV2, hLN2, hMat2, hPN2, hUsg2⟩ := h.2.2.2.2 j
        rw [hUsg2, hMat2, hLV2, matchesPattern_congr h, h.2.2.1, ih]

/-- The per-row cascade reads only the configuration and the base
columns of its row. -/
theorem processRowResult_congr {p q : BOMHierarchyProcessor}
    (h : coreAgree p q) {row row' : Row} (hrow : baseEqRow row row') :
    processRowResult p row = processRowResult q row' := by
  obtain ⟨hLV, hLN, hMat, hPN, hUsg⟩ := hrow
  unfold processRowResult traverseHierarchyUnified
  simp only [hLV, hLN, hMat, hPN, hUsg, h.2.2.1, matchesPattern_congr h,
    traverseTraceF_congr h]

/-- Processing rewrites only the derived columns, so the processed
processor core-agrees with the original. -/
theorem coreAgree_process (p : BOMHierarchyProcessor) :
    coreAgree (process p) p := by
  refine ⟨rfl, rfl, rfl, by simp [process], ?_⟩
  intro i
  unfold rowAt process
  dsimp only
  rcases Nat.lt_or_ge i p.data.length with hi | hi
  · rw [List.getD_eq_getElem?_getD, List.getElem?_map,
      List.getElem?_eq_getElem hi, List.getD_eq_getElem?_getD,
      List.getElem?_eq_getElem hi]
    exact ⟨rfl, rfl, rfl, rfl, rfl⟩
  · rw [List.getD_eq_getElem?_getD, List.getElem?_map,
      List.getElem?_eq_none (by simpa using hi),
      List.getD_eq_getElem?_getD, List.getElem?_eq_none hi]
    exact ⟨rfl, rfl, rfl, rfl, rfl⟩

/-- Two processors with equal components are equal. -/
theorem procExt (x y : BOMHierarchyProcessor) (h1 : x.data = y.data)
    (h2 : x.pattern = y.pattern) (h3 : x.compileOk = y.compileOk)
    (h4 : x.lvSpecialRules = y.lvSpecialRules) : x = y := by
  cases x
  cases y
  cases h1
  cases h2
  cases h3
  cases h4
  rfl

/-- Processing twice equals processing once: the derived columns written
by the first pass are never read by the second. -/
theorem process_process (p : BOMHierarchyProcessor) :
    process (process p) = process p := by
  have hpd : (process p).data = p.data.map (fun row =>
      { row with SYS_CPN := some (processRowResult p row).1,
                 TtlUsage := some (processRowResult p row).2 }) := rfl
  have hdata : (process p).data.map (fun row =>
      { row with SYS_CPN := some (processRowResult (process p) row).1,
                 TtlUsage := some (processRowResult (process p) row).2 }) =
      (process p).data := by
    rw [hpd, List.map_map]
    refine List.map_congr_left ?_
    intro row hrow
    have hres : processRowResult (process p)
        ({ row with SYS_CPN := some (processRowResult p row).1,
                    TtlUsage := some (processRowResult p row).2 }) =
        processRowResult p row :=
      processRowResult_congr (coreAgree_process p) ⟨rfl, rfl, rfl, rfl, rfl⟩
    simp only [Function.comp_apply, hres]
  exact procExt _ _ hdata rfl rfl rfl

/-- C9: constructing a processor from any table and configuration and
invoking `process` twice yields identical `SYS_CPN` and `Ttl. Usage`
values both times — the whole processed state is equal, so the second
resolution is unaffected by the derived columns written by the first.
Construction itself operates on a deep copy; in this value-semantics
embedding the caller's table is untouched by definition. -/
theorem claim_C9_theorem (rows : List Row) (pat : String) (ok : Bool)
    (rules : List SpecialRule) :
    process (process (construct rows pat ok rules)) =
      process (construct rows pat ok rules) :=
  process_process (construct rows pat ok rules)
